import Mathlib

/-!
Shallow embedding of `memory.py`, the memory subsystem of a simulated
word-addressed MIPS processor, together with theorems settling the spec's
claims about it.

Modelling conventions:
* Python integers are `Int`; Python `//` and `%` (floor division and floor
  modulus) are `Int.fdiv` and `Int.fmod`.
* Python `value & 0xFFFF` equals `value.fmod 65536` for every integer
  (two's-complement bitwise AND with `2^16 - 1`).
* The Python list `self.memory` is a `List Int`; Python's `lst[i]` with an
  `int` index (which wraps negative indices and raises `IndexError` when out
  of range) is the function `pyGetItem` below.
* `MemoryError` is the inductive `MemErr`; the message strings carry no
  information beyond the offending address, so only the address is kept.
* `read_word` can raise an uncaught `IndexError` (distinct from
  `MemoryError`), so its result type `ReadResult` has three constructors.
  Stateful methods return the updated object; `read_word` performs no
  assignment, so it returns the result paired with the unchanged object.
* The Python dict `self.data_section` (insertion-ordered, unique keys) is a
  `List (String × Int)` in insertion order.
-/

/-- `MemoryConfig` dataclass: base address, total size, word size
(defaulted to 4 by `MIPSMemory.__init__`). -/
structure MemoryConfig where
  base_address : Int
  size : Int
  word_size : Int
  deriving Repr, DecidableEq

/-- The `MemoryError` exception, by cause; each carries the offending
address (the message string interpolates exactly this address). -/
inductive MemErr where
  | unaligned (address : Int)
  | outOfBounds (address : Int)
  deriving Repr, DecidableEq

/-- The `MIPSMemory` object state: its config, the backing list
`self.memory`, and the ordered mapping `self.data_section`. -/
structure MIPSMemory where
  config : MemoryConfig
  memory : List Int
  data_section : List (String × Int)
  deriving Repr, DecidableEq

namespace MIPSMemory

/-- `MIPSMemory.__init__(base_address, size)`:
`config = MemoryConfig(base_address, size)` (word_size defaults to 4),
`memory = [0] * (size // 2)`, `data_section = {}`. -/
def init (base_address size : Int) : MIPSMemory :=
  { config := ⟨base_address, size, 4⟩
    memory := List.replicate (size.fdiv 2).toNat 0
    data_section := [] }

/-- Python list subscription `lst[i]` with an integer index: a negative
index `i` with `-len ≤ i` addresses `lst[len + i]`; outside
`[-len, len)` it raises `IndexError` (modelled as `none`). -/
def pyGetItem (lst : List Int) (i : Int) : Option Int :=
  if 0 ≤ i then
    lst.get? i.toNat
  else
    let j : Int := (lst.length : Int) + i
    if 0 ≤ j then lst.get? j.toNat else none

/-- `MIPSMemory._validate_address(address)`: raises (returns `some`)
`MemoryError` on failure, returns normally (`none`) on success.
Alignment is checked on the ABSOLUTE address; the out-of-bounds error is
suppressed whenever `0 <= address < base_address`. -/
def _validate_address (m : MIPSMemory) (address : Int) : Option MemErr :=
  if address.fmod m.config.word_size ≠ 0 then
    some (.unaligned address)
  else
    let relative_address := address - m.config.base_address
    let index := relative_address.fdiv m.config.word_size
    if ¬ (0 ≤ index ∧ index < (m.memory.length : Int)) then
      if ¬ (0 ≤ address ∧ address < m.config.base_address) then
        some (.outOfBounds address)
      else
        none
    else
      none

/-- Result of `read_word`: a value, a raised `MemoryError`, or a raised
`IndexError` (from `self.memory[index]`, not caught by
`except MemoryError`). -/
inductive ReadResult where
  | ok (v : Int)
  | memError (e : MemErr)
  | indexError
  deriving Repr, DecidableEq

/-- `MIPSMemory.read_word(address)`: try `_validate_address` then
`self.memory[(address - base) // word_size]`; on a caught `MemoryError`,
if `0 <= address < base_address` and `address // word_size` is a valid
index, return that cell, else re-raise. No field is assigned, so the
state component of the result is the input state. -/
def read_word (m : MIPSMemory) (address : Int) : ReadResult × MIPSMemory :=
  match _validate_address m address with
  | some e =>
      if 0 ≤ address ∧ address < m.config.base_address then
        let index := address.fdiv m.config.word_size
        if 0 ≤ index ∧ index < (m.memory.length : Int) then
          (.ok (m.memory.getD index.toNat 0), m)
        else
          (.memError e, m)
      else
        (.memError e, m)
  | none =>
      let index := (address - m.config.base_address).fdiv m.config.word_size
      match pyGetItem m.memory index with
      | some v => (.ok v, m)
      | none => (.indexError, m)

/-- `MIPSMemory.write_word(address, value)`: alignment is checked on the
RELATIVE address; primary index `relative // word_size`, else for
`0 <= address < base_address` the secondary index `address // word_size`;
stores `value & 0xFFFF` (= `value.fmod 65536`). -/
def write_word (m : MIPSMemory) (address value : Int) :
    Except MemErr MIPSMemory :=
  let relative_address := address - m.config.base_address
  if relative_address.fmod m.config.word_size ≠ 0 then
    .error (.unaligned address)
  else
    let index := relative_address.fdiv m.config.word_size
    if 0 ≤ index ∧ index < (m.memory.length : Int) then
      .ok { m with memory := m.memory.set index.toNat (value.fmod 65536) }
    else
      if 0 ≤ address ∧ address < m.config.base_address then
        let index2 := address.fdiv m.config.word_size
        if 0 ≤ index2 ∧ index2 < (m.memory.length : Int) then
          .ok { m with memory := m.memory.set index2.toNat (value.fmod 65536) }
        else
          .error (.outOfBounds address)
      else
        .error (.outOfBounds address)

/-- `MIPSMemory.is_valid_address(address)`: relative alignment gate, then
primary range check, then (only for `0 <= address < base_address`) the
secondary range check on `address // word_size`. Never raises. -/
def is_valid_address (m : MIPSMemory) (address : Int) : Bool :=
  let relative_address := address - m.config.base_address
  if relative_address.fmod m.config.word_size ≠ 0 then
    false
  else
    let index := relative_address.fdiv m.config.word_size
    if 0 ≤ index ∧ index < (m.memory.length : Int) then
      true
    else
      if 0 ≤ address ∧ address < m.config.base_address then
        let index2 := address.fdiv m.config.word_size
        decide (0 ≤ index2 ∧ index2 < (m.memory.length : Int))
      else
        false

/-- The loop body of `allocate_data`: for each value at successive ranks
`i, i+1, ...`, set `memory[i] = value` when `i < len(memory)`. -/
def writeRanks (mem : List Int) (vals : List Int) (i : Nat) : List Int :=
  match vals with
  | [] => mem
  | v :: rest =>
      if i < mem.length then writeRanks (mem.set i v) rest (i + 1)
      else writeRanks mem rest (i + 1)

/-- `MIPSMemory.allocate_data(data_section)`: replaces the stored mapping
wholesale and writes each value at its rank in iteration order, skipping
ranks `>= len(memory)`. -/
def allocate_data (m : MIPSMemory) (ds : List (String × Int)) : MIPSMemory :=
  { m with
    data_section := ds
    memory := writeRanks m.memory (ds.map Prod.snd) 0 }

/-- Python assignment `d[k] = v` for a key already present in the ordered
dict `d`: the value at the (unique) occurrence of `k` is replaced, the key
order is unchanged. -/
def setKey : List (String × Int) → String → Int → List (String × Int)
  | [], _, _ => []
  | p :: rest, k, v =>
      if p.1 = k then (p.1, v) :: rest else p :: setKey rest k v

/-- `MIPSMemory.update_data_memory(var_name, value)`: if `var_name` is a
key of `data_section`, take its rank in key order; if that rank is a valid
cell index, overwrite the cell and the stored value; otherwise (and for an
unknown name) do nothing. -/
def update_data_memory (m : MIPSMemory) (var_name : String) (value : Int) :
    MIPSMemory :=
  if var_name ∈ m.data_section.map Prod.fst then
    let variable_index := (m.data_section.map Prod.fst).indexOf var_name
    if 0 ≤ variable_index ∧ variable_index < m.memory.length then
      { m with
        memory := m.memory.set variable_index value
        data_section := setKey m.data_section var_name value }
    else
      m
  else
    m

/-- `MIPSMemory.get_data_memory_values()`: returns `self.memory[:]`, a
copy of the backing list (in the pure model the list itself). -/
def get_data_memory_values (m : MIPSMemory) : List Int :=
  m.memory

/-- The validity predicate exactly as claim C5 words it, for comparison
with `is_valid_address`: either the primary check
`(a - base) mod word_size == 0` with `0 ≤ (a - base)/word_size <
cell_count`, or the secondary check `0 ≤ a < base_address` with
`0 ≤ a/word_size < cell_count` (the claim's secondary disjunct carries no
alignment condition of its own). -/
def is_valid_address_claimed (m : MIPSMemory) (a : Int) : Bool :=
  (decide ((a - m.config.base_address).fmod m.config.word_size = 0) &&
    decide (0 ≤ (a - m.config.base_address).fdiv m.config.word_size) &&
    decide ((a - m.config.base_address).fdiv m.config.word_size <
      (m.memory.length : Int))) ||
  (decide (0 ≤ a) && decide (a < m.config.base_address) &&
    decide (0 ≤ a.fdiv m.config.word_size) &&
    decide (a.fdiv m.config.word_size < (m.memory.length : Int)))

end MIPSMemory

/-! ### Concrete states used by witnesses and counterexamples -/

/-- The reachable state `write_word(16, 7)` produces from
`MIPSMemory(8, 8)`: four cells, cell 2 holds 7 (address 16 has primary
index `(16 - 8) // 4 = 2`). -/
def mBelow : MIPSMemory := ⟨⟨8, 8, 4⟩, [0, 0, 7, 0], []⟩

/-- The reachable state `write_word(1, 5)` produces from
`MIPSMemory(1, 8)` (misaligned base): cell `(1 - 1) // 4 = 0` holds 5. -/
def mRound : MIPSMemory := ⟨⟨1, 8, 4⟩, [5, 0, 0, 0], []⟩

/-- The reachable state `write_word(5, 7)` produces from
`MIPSMemory(1, 8)` (misaligned base): cell `(5 - 1) // 4 = 1` holds 7. -/
def mAligned : MIPSMemory := ⟨⟨1, 8, 4⟩, [0, 7, 0, 0], []⟩

/-- The reachable state `write_word(0, 0x1FFFF)` produces from
`MIPSMemory(8, 8)`: the secondary tier stores `0x1FFFF & 0xFFFF = 0xFFFF`
into cell `0 // 4 = 0`. -/
def mTrunc : MIPSMemory := ⟨⟨8, 8, 4⟩, [65535, 0, 0, 0], []⟩

/-- The data segment of the spec's running example. -/
def dsXYZ : List (String × Int) := [("x", 1), ("y", 2), ("z", 3)]

/-- `MIPSMemory(8, 8)` after `allocate_data({"x": 1, "y": 2, "z": 3})`. -/
def mXYZ : MIPSMemory := (MIPSMemory.init 8 8).allocate_data dsXYZ

/-- A one-entry data segment whose value exceeds `0xFFFF`. -/
def dsBig : List (String × Int) := [("big", 131071)]

/-- `MIPSMemory(8, 8)` after `allocate_data({"big": 0x1FFFF})`. -/
def mBig : MIPSMemory := (MIPSMemory.init 8 8).allocate_data dsBig

namespace MIPSMemory

/-! ### Helper lemmas -/

/-- Floor division of a negative difference by a positive word size is
negative: an address strictly below the base always yields a negative
primary index. -/
theorem fdiv_sub_neg {a b w : Int} (h : a < b) (hw : 0 < w) :
    (a - b).fdiv w < 0 := by
  rw [Int.fdiv_eq_ediv _ (le_of_lt hw)]
  exact Int.ediv_neg' (by omega) hw

/-- Characterization of `read_word` on an absolutely aligned address
strictly below `base_address`: validation succeeds (the out-of-bounds
error is suppressed), the primary index is negative, and the Python
negative-index semantics of `self.memory[index]` decides the outcome. -/
theorem read_word_below_base (m : MIPSMemory) (a : Int)
    (hws : 0 < m.config.word_size)
    (h0 : 0 ≤ a) (hb : a < m.config.base_address)
    (hal : a.fmod m.config.word_size = 0) :
    m._validate_address a = none ∧
    (a - m.config.base_address).fdiv m.config.word_size < 0 ∧
    (0 ≤ (m.memory.length : Int) +
        (a - m.config.base_address).fdiv m.config.word_size →
      (m.read_word a).1 = ReadResult.ok
        (m.memory.getD ((m.memory.length : Int) +
          (a - m.config.base_address).fdiv m.config.word_size).toNat 0)) ∧
    ((m.memory.length : Int) +
        (a - m.config.base_address).fdiv m.config.word_size < 0 →
      (m.read_word a).1 = ReadResult.indexError) := by
  have hidx : (a - m.config.base_address).fdiv m.config.word_size < 0 :=
    fdiv_sub_neg hb hws
  have hval : m._validate_address a = none := by
    unfold _validate_address
    rw [if_neg (by simp [hal])]
    rw [if_pos (by omega)]
    rw [if_neg (by omega)]
  refine ⟨hval, hidx, ?_, ?_⟩ <;> intro hj <;>
    simp only [read_word, hval] <;>
    rw [show pyGetItem m.memory
        ((a - m.config.base_address).fdiv m.config.word_size) =
        if 0 ≤ (m.memory.length : Int) +
            (a - m.config.base_address).fdiv m.config.word_size then
          m.memory.get? ((m.memory.length : Int) +
            (a - m.config.base_address).fdiv m.config.word_size).toNat
        else none from by rw [pyGetItem, if_neg (by omega)]]
  · rw [if_pos hj]
    have hlt : ((m.memory.length : Int) +
        (a - m.config.base_address).fdiv m.config.word_size).toNat <
        m.memory.length := by omega
    simp [List.getD_eq_getElem?_getD, List.getElem?_eq_getElem hlt]
  · rw [if_neg (by omega)]

/-! ### Claim C2 -/

/-- C2: for every address `a` with `0 ≤ a < base_address` and
`a mod word_size == 0`, `read_word(a)` never reaches its secondary-tier
fallback: `_validate_address` accepts `a` (the out-of-bounds error is
suppressed for all addresses below `base_address`), the storage array is
then indexed at the negative index `(a - base_address) / word_size`, so
`read_word` returns the contents of cell
`cell_count + (a - base_address) / word_size` when that is a valid index,
and otherwise raises an index error that is not a `MemoryError`. -/
theorem read_word_below_base_skips_fallback (m : MIPSMemory) (a : Int)
    (hws : 0 < m.config.word_size)
    (h0 : 0 ≤ a) (hb : a < m.config.base_address)
    (hal : a.fmod m.config.word_size = 0) :
    m._validate_address a = none ∧
    (a - m.config.base_address).fdiv m.config.word_size < 0 ∧
    (0 ≤ (m.memory.length : Int) +
        (a - m.config.base_address).fdiv m.config.word_size →
      (m.read_word a).1 = ReadResult.ok
        (m.memory.getD ((m.memory.length : Int) +
          (a - m.config.base_address).fdiv m.config.word_size).toNat 0)) ∧
    ((m.memory.length : Int) +
        (a - m.config.base_address).fdiv m.config.word_size < 0 →
      (m.read_word a).1 = ReadResult.indexError) :=
  read_word_below_base m a hws h0 hb hal

/-- C2 witness: in the reachable state `mBelow` (base 8, cells
`[0, 0, 7, 0]`), address 0 satisfies the hypotheses, validation accepts
it, and `read_word(0)` returns cell `4 + (-2) = 2`, namely 7. -/
theorem read_word_below_base_skips_fallback_witness :
    mBelow._validate_address 0 = none ∧
    (mBelow.read_word 0).1 = ReadResult.ok 7 := by
  have h := read_word_below_base_skips_fallback mBelow 0 (by decide)
    (by decide) (by decide) (by decide)
  exact ⟨h.1, (h.2.2.1 (by decide)).trans (by decide)⟩

/-! ### Claim C1 -/

/-- C1 counterexample: in the reachable state `mBelow`
(`MIPSMemory(8, 8)` after `write_word(16, 7)`), address 0 satisfies all
of C1's hypotheses (`0 ≤ 0 < 8`, `0 mod 4 = 0`, `0 ≤ 0 // 4 = 0 < 4`),
cell `0 // 4 = 0` holds 0, yet `read_word(0)` returns 7 (cell 2, reached
by Python negative indexing), not the contents of cell `a / word_size`.
So the secondary tier does not serve reads of such addresses. -/
theorem read_word_secondary_tier_cex :
    (MIPSMemory.init 8 8).write_word 16 7 = Except.ok mBelow ∧
    ((0:Int) ≤ 0 ∧ (0:Int) < mBelow.config.base_address ∧
      (0:Int).fmod mBelow.config.word_size = 0 ∧
      0 ≤ (0:Int).fdiv mBelow.config.word_size ∧
      (0:Int).fdiv mBelow.config.word_size < (mBelow.memory.length : Int)) ∧
    mBelow.memory.getD ((0:Int).fdiv mBelow.config.word_size).toNat 0 = 0 ∧
    (mBelow.read_word 0).1 = ReadResult.ok 7 ∧
    ReadResult.ok (7:Int) ≠ ReadResult.ok (0:Int) :=
  ⟨rfl, by decide, by decide, by decide, by decide⟩

/-- C1 (amended): for every address `a` with `0 ≤ a < base_address`,
`a mod word_size == 0`, `(a - base_address) mod word_size == 0` (the
relative alignment `write_word` actually checks), and
`0 ≤ a / word_size < cell_count`: the secondary tier accepts `a` for
`write_word`, which stores `v & 0xFFFF` into cell `a / word_size` without
raising; `read_word(a)`, however, never raises a `MemoryError` and does
not use the secondary tier: it returns the contents of cell
`cell_count + (a - base_address) / word_size` when that index is
nonnegative, and raises an `IndexError` otherwise. -/
theorem secondary_tier_write_vs_read (m : MIPSMemory) (a v : Int)
    (hws : 0 < m.config.word_size)
    (h0 : 0 ≤ a) (hb : a < m.config.base_address)
    (habs : a.fmod m.config.word_size = 0)
    (hrel : (a - m.config.base_address).fmod m.config.word_size = 0)
    (hi0 : 0 ≤ a.fdiv m.config.word_size)
    (hi1 : a.fdiv m.config.word_size < (m.memory.length : Int)) :
    m.write_word a v = Except.ok
      { m with memory :=
          m.memory.set (a.fdiv m.config.word_size).toNat (v.fmod 65536) } ∧
    m._validate_address a = none ∧
    (∀ e, (m.read_word a).1 ≠ ReadResult.memError e) ∧
    (0 ≤ (m.memory.length : Int) +
        (a - m.config.base_address).fdiv m.config.word_size →
      (m.read_word a).1 = ReadResult.ok
        (m.memory.getD ((m.memory.length : Int) +
          (a - m.config.base_address).fdiv m.config.word_size).toNat 0)) ∧
    ((m.memory.length : Int) +
        (a - m.config.base_address).fdiv m.config.word_size < 0 →
      (m.read_word a).1 = ReadResult.indexError) := by
  obtain ⟨hval, hidx, hok, herr⟩ := read_word_below_base m a hws h0 hb habs
  refine ⟨?_, hval, ?_, hok, herr⟩
  · unfold write_word
    rw [if_neg (by simp [hrel])]
    rw [if_neg (by omega)]
    rw [if_pos ⟨h0, hb⟩]
    rw [if_pos ⟨hi0, hi1⟩]
  · intro e
    by_cases hj : 0 ≤ (m.memory.length : Int) +
        (a - m.config.base_address).fdiv m.config.word_size
    · rw [hok hj]; simp
    · rw [herr (by omega)]; simp

/-- C1 (amended) witness: in `mBelow`, `write_word(0, 99999)` stores
`99999 & 0xFFFF = 34463` into cell `0 // 4 = 0`, while `read_word(0)`
returns cell 2's contents, 7. -/
theorem secondary_tier_write_vs_read_witness :
    mBelow.write_word 0 99999 = Except.ok
      { mBelow with memory := mBelow.memory.set 0 ((99999:Int).fmod 65536) } ∧
    (mBelow.read_word 0).1 = ReadResult.ok 7 := by
  have h := secondary_tier_write_vs_read mBelow 0 99999 (by decide) (by decide)
    (by decide) (by decide) (by decide) (by decide) (by decide)
  exact ⟨h.1, (h.2.2.2.1 (by decide)).trans (by decide)⟩

/-! ### Claim C3 -/

/-- Shared helper: for a primary-tier address that is aligned both
relatively (what `write_word` checks) and absolutely (what `read_word`'s
validation checks) and whose primary index is in range, `write_word`
stores `v & 0xFFFF` at that index and a subsequent `read_word` returns
it. -/
theorem write_then_read_primary (m : MIPSMemory) (a v : Int)
    (hrel : (a - m.config.base_address).fmod m.config.word_size = 0)
    (habs : a.fmod m.config.word_size = 0)
    (hi0 : 0 ≤ (a - m.config.base_address).fdiv m.config.word_size)
    (hi1 : (a - m.config.base_address).fdiv m.config.word_size <
      (m.memory.length : Int)) :
    m.write_word a v = Except.ok
      ⟨m.config,
        m.memory.set ((a - m.config.base_address).fdiv
          m.config.word_size).toNat (v.fmod 65536),
        m.data_section⟩ ∧
    ∀ m2, m.write_word a v = Except.ok m2 →
      (m2.read_word a).1 = ReadResult.ok (v.fmod 65536) := by
  have hw : m.write_word a v = Except.ok
      ⟨m.config,
        m.memory.set ((a - m.config.base_address).fdiv
          m.config.word_size).toNat (v.fmod 65536),
        m.data_section⟩ := by
    unfold write_word
    rw [if_neg (by simp [hrel])]
    rw [if_pos ⟨hi0, hi1⟩]
  refine ⟨hw, fun m2 h2 => ?_⟩
  rw [hw] at h2
  injection h2 with h2
  subst h2
  have hlen : (m.memory.set
      ((a - m.config.base_address).fdiv m.config.word_size).toNat
      (v.fmod 65536)).length = m.memory.length := List.length_set ..
  have hval : MIPSMemory._validate_address
      ⟨m.config,
        m.memory.set ((a - m.config.base_address).fdiv
          m.config.word_size).toNat (v.fmod 65536),
        m.data_section⟩ a = none := by
    unfold _validate_address
    rw [if_neg (by simp [habs])]
    rw [if_neg (by simp only [hlen]; omega)]
  simp only [read_word, hval]
  rw [show pyGetItem (m.memory.set
      ((a - m.config.base_address).fdiv m.config.word_size).toNat
      (v.fmod 65536))
      ((a - m.config.base_address).fdiv m.config.word_size) =
      (m.memory.set
        ((a - m.config.base_address).fdiv m.config.word_size).toNat
        (v.fmod 65536)).get?
        ((a - m.config.base_address).fdiv m.config.word_size).toNat
    from by rw [pyGetItem, if_pos hi0]]
  rw [List.get?_eq_getElem?, List.getElem?_set_self (by omega)]

/-- C3 counterexample: with the misaligned base `MIPSMemory(1, 8)` and
address 1, `(1 - 1) mod 4 = 0` and the primary index `0` is in range, so
`write_word(1, 5)` succeeds (storing 5 in cell 0); but `read_word(1)`
validates the absolute address, `1 mod 4 ≠ 0`, and since `¬(1 < 1)` the
fallback also fails, so it raises `MemoryError` instead of returning
`5 & 0xFFFF`. The claim is false quantified over every `base_address`. -/
theorem write_then_read_claim_cex :
    (MIPSMemory.init 1 8).write_word 1 5 = Except.ok mRound ∧
    (((1:Int) - mRound.config.base_address).fmod mRound.config.word_size = 0 ∧
      0 ≤ ((1:Int) - mRound.config.base_address).fdiv mRound.config.word_size ∧
      ((1:Int) - mRound.config.base_address).fdiv mRound.config.word_size <
        (mRound.memory.length : Int)) ∧
    (mRound.read_word 1).1 = ReadResult.memError (MemErr.unaligned 1) ∧
    ReadResult.memError (MemErr.unaligned 1) ≠
      ReadResult.ok ((5:Int).fmod 65536) :=
  ⟨rfl, by decide, by decide, by decide⟩

/-- C3 (amended): for every address `a` with
`(a - base_address) mod word_size == 0`,
`0 ≤ (a - base_address)/word_size < cell_count`, and additionally
`a mod word_size == 0` (the absolute alignment `read_word`'s validation
checks — automatic exactly when `base_address` is itself aligned), and
every integer `v`: `write_word(a, v)` succeeds and a subsequent
`read_word(a)` returns `v & 0xFFFF`, over every `base_address`, `size`
and prior memory state. -/
theorem write_then_read_returns_masked (m : MIPSMemory) (a v : Int)
    (hrel : (a - m.config.base_address).fmod m.config.word_size = 0)
    (habs : a.fmod m.config.word_size = 0)
    (hi0 : 0 ≤ (a - m.config.base_address).fdiv m.config.word_size)
    (hi1 : (a - m.config.base_address).fdiv m.config.word_size <
      (m.memory.length : Int)) :
    m.write_word a v = Except.ok
      ⟨m.config,
        m.memory.set ((a - m.config.base_address).fdiv
          m.config.word_size).toNat (v.fmod 65536),
        m.data_section⟩ ∧
    ∀ m2, m.write_word a v = Except.ok m2 →
      (m2.read_word a).1 = ReadResult.ok (v.fmod 65536) :=
  write_then_read_primary m a v hrel habs hi0 hi1

/-- C3 (amended) witness: on `MIPSMemory(0, 8)`, `write_word(4, 123456)`
stores `123456 & 0xFFFF = 57920` in cell 1 and `read_word(4)` returns
it. -/
theorem write_then_read_returns_masked_witness :
    ((⟨⟨0, 8, 4⟩, [0, 57920, 0, 0], []⟩ : MIPSMemory).read_word 4).1 =
      ReadResult.ok ((123456:Int).fmod 65536) ∧
    (123456:Int).fmod 65536 = 57920 :=
  ⟨(write_then_read_returns_masked (MIPSMemory.init 0 8) 4 123456 (by decide)
      (by decide) (by decide) (by decide)).2 _ rfl,
    by decide⟩

/-! ### Claim C4 -/

/-- C4 counterexample: with the misaligned base `MIPSMemory(1, 8)` and
address 5, the offset from the base is `4`, a multiple of `word_size`;
`write_word(5, 7)` indeed passes its alignment check and stores into
cell 1, but `read_word(5)` fails with an unaligned `MemoryError`
(validation checks `5 mod 4` on the absolute address). So the primary
tier's alignment condition is not relative for both operations. -/
theorem primary_alignment_relative_cex :
    ((5:Int) - 1).fmod 4 = 0 ∧
    (5:Int).fmod 4 ≠ 0 ∧
    (MIPSMemory.init 1 8).write_word 5 7 = Except.ok mAligned ∧
    ((MIPSMemory.init 1 8).read_word 5).1 =
      ReadResult.memError (MemErr.unaligned 5) :=
  ⟨by decide, by decide, rfl, by decide⟩

/-- C4 (amended): the primary alignment condition
`(address - base_address) mod word_size == 0` governs `write_word` (which
raises the unaligned `MemoryError` exactly when it fails, even when
`base_address` is not a multiple of `word_size`) and gates
`is_valid_address`; `read_word`'s validation instead checks
`address mod word_size == 0` on the absolute address, and raises the
unaligned error exactly when that fails. -/
theorem alignment_reference_points (m : MIPSMemory) (a v : Int) :
    (m.write_word a v = Except.error (MemErr.unaligned a) ↔
      (a - m.config.base_address).fmod m.config.word_size ≠ 0) ∧
    (m.is_valid_address a = true →
      (a - m.config.base_address).fmod m.config.word_size = 0) ∧
    (m._validate_address a = some (MemErr.unaligned a) ↔
      a.fmod m.config.word_size ≠ 0) := by
  refine ⟨⟨fun h => ?_, fun h => ?_⟩, fun h => ?_, ⟨fun h => ?_, fun h => ?_⟩⟩
  · by_contra hrel
    rw [write_word] at h
    rw [if_neg (by simp [hrel])] at h
    dsimp only at h
    by_cases h1 : 0 ≤ (a - m.config.base_address).fdiv m.config.word_size ∧
        (a - m.config.base_address).fdiv m.config.word_size <
          (m.memory.length : Int)
    · rw [if_pos h1] at h
      exact Except.noConfusion h
    · rw [if_neg h1] at h
      by_cases h2 : 0 ≤ a ∧ a < m.config.base_address
      · rw [if_pos h2] at h
        by_cases h3 : 0 ≤ a.fdiv m.config.word_size ∧
            a.fdiv m.config.word_size < (m.memory.length : Int)
        · rw [if_pos h3] at h
          exact Except.noConfusion h
        · rw [if_neg h3] at h
          exact MemErr.noConfusion (Except.error.inj h)
      · rw [if_neg h2] at h
        exact MemErr.noConfusion (Except.error.inj h)
  · rw [write_word, if_pos h]
  · by_contra hrel
    rw [is_valid_address, if_pos hrel] at h
    exact Bool.false_ne_true h
  · by_contra habs
    rw [_validate_address] at h
    rw [if_neg (by simp [habs])] at h
    dsimp only at h
    by_cases h1 : ¬(0 ≤ (a - m.config.base_address).fdiv m.config.word_size ∧
        (a - m.config.base_address).fdiv m.config.word_size <
          (m.memory.length : Int))
    · rw [if_pos h1] at h
      by_cases h2 : ¬(0 ≤ a ∧ a < m.config.base_address)
      · rw [if_pos h2] at h
        exact MemErr.noConfusion (Option.some.inj h)
      · rw [if_neg h2] at h
        exact Option.noConfusion h
    · rw [if_neg h1] at h
      exact Option.noConfusion h
  · rw [_validate_address, if_pos h]

/-- C4 witness: `write_word(2, 7)` on `MIPSMemory(1, 8)` raises the
unaligned error (offset 1 from the base); validation of address 5 on the
same engine raises the unaligned error (absolute `5 mod 4 ≠ 0`); and on
`MIPSMemory(0, 8)` a valid address 4 has an aligned offset. -/
theorem alignment_reference_points_witness :
    (MIPSMemory.init 1 8).write_word 2 7 =
      Except.error (MemErr.unaligned 2) ∧
    (MIPSMemory.init 1 8)._validate_address 5 =
      some (MemErr.unaligned 5) ∧
    ((4:Int) - (MIPSMemory.init 0 8).config.base_address).fmod
      (MIPSMemory.init 0 8).config.word_size = 0 :=
  ⟨(alignment_reference_points (MIPSMemory.init 1 8) 2 7).1.mpr (by decide),
    (alignment_reference_points (MIPSMemory.init 1 8) 5 7).2.2.mpr (by decide),
    (alignment_reference_points (MIPSMemory.init 0 8) 4 7).2.1 (by decide)⟩

/-! ### Claim C5 -/

/-- C5 counterexample: on `MIPSMemory(1, 8)` (misaligned base), address 0
satisfies the claim's secondary check (`0 ≤ 0 < 1` and
`0 ≤ 0 // 4 = 0 < 4`), so the claimed formula returns true — but
`is_valid_address(0)` returns false, because the code's single alignment
gate `(0 - 1) mod 4 = 3 ≠ 0` is checked before either tier. -/
theorem is_valid_address_claim_cex :
    MIPSMemory.is_valid_address (MIPSMemory.init 1 8) 0 = false ∧
    MIPSMemory.is_valid_address_claimed (MIPSMemory.init 1 8) 0 = true := by
  decide

/-- C5 (amended): `is_valid_address(a)` never raises (it is a total
boolean function) and returns true iff
`(a - base_address) mod word_size == 0` — the single, relative alignment
gate — and either the primary index `(a - base_address)/word_size` is in
`[0, cell_count)` or `0 ≤ a < base_address` with `a/word_size` in
`[0, cell_count)`; all failures collapse to `false`. -/
theorem is_valid_address_characterization (m : MIPSMemory) (a : Int) :
    m.is_valid_address a = true ↔
      ((a - m.config.base_address).fmod m.config.word_size = 0 ∧
        ((0 ≤ (a - m.config.base_address).fdiv m.config.word_size ∧
            (a - m.config.base_address).fdiv m.config.word_size <
              (m.memory.length : Int)) ∨
          (0 ≤ a ∧ a < m.config.base_address ∧
            0 ≤ a.fdiv m.config.word_size ∧
            a.fdiv m.config.word_size < (m.memory.length : Int)))) := by
  rw [is_valid_address]
  by_cases hal : (a - m.config.base_address).fmod m.config.word_size ≠ 0
  · rw [if_pos hal]
    simp [hal]
  · rw [if_neg hal]
    rw [not_not] at hal
    dsimp only
    by_cases h1 : 0 ≤ (a - m.config.base_address).fdiv m.config.word_size ∧
        (a - m.config.base_address).fdiv m.config.word_size <
          (m.memory.length : Int)
    · rw [if_pos h1]
      simp [hal, h1]
    · rw [if_neg h1]
      by_cases h2 : 0 ≤ a ∧ a < m.config.base_address
      · rw [if_pos h2]
        simp only [decide_eq_true_eq]
        constructor
        · intro hsec
          exact ⟨hal, Or.inr ⟨h2.1, h2.2, hsec.1, hsec.2⟩⟩
        · rintro ⟨-, hor⟩
          rcases hor with h | h
          · exact absurd h h1
          · exact ⟨h.2.2.1, h.2.2.2⟩
      · rw [if_neg h2]
        simp only [Bool.false_eq_true, false_iff]
        rintro ⟨-, hor⟩
        rcases hor with h | h
        · exact absurd h h1
        · exact absurd ⟨h.1, h.2.1⟩ h2

/-! ### Claim C6 -/

/-- Helper: a value produced by Python list subscription is an element of
the list. -/
theorem pyGetItem_mem {l : List Int} {i : Int} {v : Int}
    (h : MIPSMemory.pyGetItem l i = some v) : v ∈ l := by
  rw [MIPSMemory.pyGetItem] at h
  by_cases h0 : 0 ≤ i
  · rw [if_pos h0] at h
    exact List.get?_mem h
  · rw [if_neg h0] at h
    dsimp only at h
    by_cases h1 : 0 ≤ (l.length : Int) + i
    · rw [if_pos h1] at h
      exact List.get?_mem h
    · rw [if_neg h1] at h
      exact Option.noConfusion h

/-- C6 counterexample: on `MIPSMemory(8, 8)`, both operations accept
address 0: `write_word(0, 0x1FFFF)` succeeds (secondary tier, cell 0
becomes `0xFFFF`), and `read_word(0)` on the resulting state returns a
value — but that value is 0 (cell `4 + (0 - 8)//4 = 2`, via negative
indexing), not `0xFFFF`. -/
theorem masked_roundtrip_cex :
    (MIPSMemory.init 8 8).write_word 0 131071 = Except.ok mTrunc ∧
    (mTrunc.read_word 0).1 = ReadResult.ok 0 ∧
    ReadResult.ok (0:Int) ≠ ReadResult.ok 65535 :=
  ⟨rfl, by decide, by decide⟩

/-- C6 (amended): every successful `write_word(address, value)` stores
`value & 0xFFFF` (discarding higher bits silently) into the target cell
(primary or secondary index), and `read_word` returns a raw stored cell
value without masking; `write_word(addr, 0x1FFFF)` followed by
`read_word(addr)` yields `0xFFFF` for addresses both operations resolve
to the same cell — in particular every primary-tier address that is
absolutely and relatively aligned with its index in range — but not for
every address accepted by both operations (see the counterexample). -/
theorem write_masks_read_raw (m : MIPSMemory) (a v : Int) :
    (∀ m2, m.write_word a v = Except.ok m2 →
      m2.config = m.config ∧ m2.data_section = m.data_section ∧
      (m2.memory = m.memory.set
          ((a - m.config.base_address).fdiv m.config.word_size).toNat
          (v.fmod 65536) ∨
        m2.memory = m.memory.set (a.fdiv m.config.word_size).toNat
          (v.fmod 65536))) ∧
    (∀ w, (m.read_word a).1 = ReadResult.ok w → w ∈ m.memory) ∧
    (a.fmod m.config.word_size = 0 →
      (a - m.config.base_address).fmod m.config.word_size = 0 →
      0 ≤ (a - m.config.base_address).fdiv m.config.word_size →
      (a - m.config.base_address).fdiv m.config.word_size <
        (m.memory.length : Int) →
      ∀ m2, m.write_word a 131071 = Except.ok m2 →
        (m2.read_word a).1 = ReadResult.ok 65535) := by
  refine ⟨fun m2 h => ?_, fun w h => ?_, fun habs hrel hi0 hi1 m2 h => ?_⟩
  · rw [write_word] at h
    by_cases hrel : (a - m.config.base_address).fmod m.config.word_size ≠ 0
    · rw [if_pos hrel] at h
      exact Except.noConfusion h
    · rw [if_neg hrel] at h
      dsimp only at h
      by_cases h1 : 0 ≤ (a - m.config.base_address).fdiv m.config.word_size ∧
          (a - m.config.base_address).fdiv m.config.word_size <
            (m.memory.length : Int)
      · rw [if_pos h1] at h
        injection h with h
        subst h
        exact ⟨rfl, rfl, Or.inl rfl⟩
      · rw [if_neg h1] at h
        by_cases h2 : 0 ≤ a ∧ a < m.config.base_address
        · rw [if_pos h2] at h
          by_cases h3 : 0 ≤ a.fdiv m.config.word_size ∧
              a.fdiv m.config.word_size < (m.memory.length : Int)
          · rw [if_pos h3] at h
            injection h with h
            subst h
            exact ⟨rfl, rfl, Or.inr rfl⟩
          · rw [if_neg h3] at h
            exact Except.noConfusion h
        · rw [if_neg h2] at h
          exact Except.noConfusion h
  · rw [read_word] at h
    cases hv : m._validate_address a with
    | some e =>
        rw [hv] at h
        dsimp only at h
        by_cases h2 : 0 ≤ a ∧ a < m.config.base_address
        · rw [if_pos h2] at h
          by_cases h3 : 0 ≤ a.fdiv m.config.word_size ∧
              a.fdiv m.config.word_size < (m.memory.length : Int)
          · rw [if_pos h3] at h
            injection h with h
            subst h
            have hn : (a.fdiv m.config.word_size).toNat < m.memory.length := by
              omega
            simp only [List.getD_eq_getElem?_getD,
              List.getElem?_eq_getElem hn, Option.getD_some]
            exact List.mem_iff_getElem?.mpr
              ⟨(a.fdiv m.config.word_size).toNat,
                List.getElem?_eq_getElem hn⟩
          · rw [if_neg h3] at h
            exact ReadResult.noConfusion h
        · rw [if_neg h2] at h
          exact ReadResult.noConfusion h
    | none =>
        rw [hv] at h
        dsimp only at h
        cases hp : pyGetItem m.memory
            ((a - m.config.base_address).fdiv m.config.word_size) with
        | some y =>
            rw [hp] at h
            injection h with h
            subst h
            exact pyGetItem_mem hp
        | none =>
            rw [hp] at h
            exact ReadResult.noConfusion h
  · exact ((write_then_read_primary m a 131071 hrel habs hi0 hi1).2
      m2 h).trans (by decide)

/-- C6 (amended) witness: on `MIPSMemory(0, 8)`, `write_word(4, 0x1FFFF)`
then `read_word(4)` yields `0xFFFF`. -/
theorem write_masks_read_raw_witness :
    ((⟨⟨0, 8, 4⟩, [0, 65535, 0, 0], []⟩ : MIPSMemory).read_word 4).1 =
      ReadResult.ok 65535 :=
  (write_masks_read_raw (MIPSMemory.init 0 8) 4 131071).2.2 (by decide)
    (by decide) (by decide) (by decide) _ rfl

/-! ### Claim C7 -/

/-- Helper: the `allocate_data` loop never changes the length of the
backing list. -/
theorem writeRanks_length (vals : List Int) :
    ∀ (mem : List Int) (i : Nat),
      (writeRanks mem vals i).length = mem.length := by
  induction vals with
  | nil => intro mem i; rfl
  | cons v rest ih =>
      intro mem i
      rw [writeRanks]
      by_cases h : i < mem.length
      · rw [if_pos h, ih, List.length_set]
      · rw [if_neg h, ih]

/-- Helper: the `allocate_data` loop starting at rank `i` leaves cells
below `i` unchanged. -/
theorem writeRanks_getElem_lt (vals : List Int) :
    ∀ (mem : List Int) (i k : Nat), k < i →
      (writeRanks mem vals i)[k]? = mem[k]? := by
  induction vals with
  | nil => intro mem i k _; rfl
  | cons v rest ih =>
      intro mem i k hk
      rw [writeRanks]
      by_cases h : i < mem.length
      · rw [if_pos h, ih _ _ _ (Nat.lt_succ_of_lt hk),
          List.getElem?_set_ne (by omega)]
      · rw [if_neg h, ih _ _ _ (Nat.lt_succ_of_lt hk)]

/-- Helper: the `allocate_data` loop starting at rank `i` leaves cells at
or beyond `i + `(number of values) unchanged. -/
theorem writeRanks_getElem_ge (vals : List Int) :
    ∀ (mem : List Int) (i k : Nat), i + vals.length ≤ k →
      (writeRanks mem vals i)[k]? = mem[k]? := by
  induction vals with
  | nil => intro mem i k _; rfl
  | cons v rest ih =>
      intro mem i k hk
      rw [writeRanks]
      simp only [List.length_cons] at hk
      by_cases h : i < mem.length
      · rw [if_pos h, ih _ _ _ (by omega), List.getElem?_set_ne (by omega)]
      · rw [if_neg h, ih _ _ _ (by omega)]

/-- Helper: the `allocate_data` loop starting at rank `i` puts the value
of rank `k - i` into every existing cell `k ≥ i` covered by the value
list. -/
theorem writeRanks_getElem_in (vals : List Int) :
    ∀ (mem : List Int) (i k : Nat), i ≤ k → k - i < vals.length →
      k < mem.length → (writeRanks mem vals i)[k]? = vals[k - i]? := by
  induction vals with
  | nil => intro mem i k _ h _; exact absurd h (Nat.not_lt_zero _)
  | cons v rest ih =>
      intro mem i k hik hkv hkm
      rw [writeRanks, if_pos (by omega)]
      rcases Nat.eq_or_lt_of_le hik with heq | hlt
      · subst heq
        rw [writeRanks_getElem_lt rest _ _ _ (Nat.lt_succ_self _),
          List.getElem?_set_self (by omega)]
        simp
      · rw [ih _ _ _ hlt (by simp only [List.length_cons] at hkv; omega)
          (by simp only [List.length_set]; omega)]
        have hsucc : k - i = (k - (i + 1)) + 1 := by omega
        rw [hsucc, List.getElem?_cons_succ]

/-- C7: `allocate_data(mapping)` replaces the stored data-segment mapping
wholesale and writes the value at rank `i` of the mapping's iteration
order into storage cell `i` for every rank `i < cell_count`, silently
skipping entries with rank `≥ cell_count` (no cell beyond the mapping's
length changes), independently of `base_address` and the address
translator (the resulting cells do not depend on the config at all). -/
theorem allocate_data_positional (m : MIPSMemory) (ds : List (String × Int)) :
    (m.allocate_data ds).config = m.config ∧
    (m.allocate_data ds).data_section = ds ∧
    (m.allocate_data ds).memory.length = m.memory.length ∧
    (∀ i : Nat, i < ds.length → i < m.memory.length →
      (m.allocate_data ds).memory[i]? = (ds.map Prod.snd)[i]?) ∧
    (∀ i : Nat, ds.length ≤ i →
      (m.allocate_data ds).memory[i]? = m.memory[i]?) ∧
    (∀ c2 : MemoryConfig,
      ((MIPSMemory.mk c2 m.memory m.data_section).allocate_data ds).memory =
        (m.allocate_data ds).memory) := by
  refine ⟨rfl, rfl, writeRanks_length _ _ _, fun i h1 h2 => ?_,
    fun i h1 => ?_, fun c2 => rfl⟩
  · simpa [allocate_data] using
      writeRanks_getElem_in (ds.map Prod.snd) m.memory 0 i (Nat.zero_le _)
        (by simpa using h1) h2
  · simpa [allocate_data] using
      writeRanks_getElem_ge (ds.map Prod.snd) m.memory 0 i (by simpa using h1)

/-- C7 witness: `allocate_data({"x": 1, "y": 2, "z": 3})` on
`MIPSMemory(8, 8)` stores the mapping and places 1, 2, 3 in cells
0, 1, 2; the cells are the same under base address 99. -/
theorem allocate_data_positional_witness :
    mXYZ.data_section = dsXYZ ∧
    mXYZ.memory[0]? = (dsXYZ.map Prod.snd)[0]? ∧
    mXYZ.memory[1]? = (dsXYZ.map Prod.snd)[1]? ∧
    mXYZ.memory[2]? = (dsXYZ.map Prod.snd)[2]? ∧
    ((MIPSMemory.init 99 8).allocate_data dsXYZ).memory =
      ((MIPSMemory.init 8 8).allocate_data dsXYZ).memory := by
  have h := allocate_data_positional (MIPSMemory.init 8 8) dsXYZ
  exact ⟨h.2.1, h.2.2.2.1 0 (by decide) (by decide),
    h.2.2.2.1 1 (by decide) (by decide),
    h.2.2.2.1 2 (by decide) (by decide),
    h.2.2.2.2.2 ⟨99, 8, 4⟩⟩

/-! ### Claim C8 -/

/-- Helper: updating a key's value preserves the mapping's key order. -/
theorem setKey_map_fst (ds : List (String × Int)) (k : String) (v : Int) :
    (setKey ds k v).map Prod.fst = ds.map Prod.fst := by
  induction ds with
  | nil => rfl
  | cons p rest ih =>
      obtain ⟨pk, pv⟩ := p
      rw [setKey]
      by_cases h : pk = k
      · rw [if_pos h]
        simp
      · rw [if_neg h]
        simp [ih]

/-- Helper: after updating a present key, looking it up yields the new
value. -/
theorem lookup_setKey (ds : List (String × Int)) (k : String) (v : Int)
    (h : k ∈ ds.map Prod.fst) : (setKey ds k v).lookup k = some v := by
  induction ds with
  | nil => simp at h
  | cons p rest ih =>
      obtain ⟨pk, pv⟩ := p
      rw [setKey]
      by_cases hp : pk = k
      · rw [if_pos hp, hp]
        simp [List.lookup]
      · rw [if_neg hp]
        have hk : k ∈ rest.map Prod.fst := by
          simp only [List.map_cons, List.mem_cons] at h
          rcases h with h1 | h1
          · exact absurd h1.symm hp
          · exact h1
        simp only [List.lookup]
        rw [show (k == pk) = false from
          beq_eq_false_iff_ne.mpr fun he => hp he.symm]
        exact ih hk

/-- Helper: the found-and-in-range case of `update_data_memory`,
characterized as one state update. -/
theorem update_data_memory_found (m : MIPSMemory) (name : String)
    (value : Int) (hmem : name ∈ m.data_section.map Prod.fst)
    (hr : (m.data_section.map Prod.fst).indexOf name < m.memory.length) :
    m.update_data_memory name value =
      ⟨m.config,
        m.memory.set ((m.data_section.map Prod.fst).indexOf name) value,
        setKey m.data_section name value⟩ := by
  rw [update_data_memory, if_pos hmem]
  dsimp only
  rw [if_pos ⟨Nat.zero_le _, hr⟩]

/-- C8: if `name` occupies rank `r < cell_count` of the stored data
segment's key order, `update_data_memory(name, value)` overwrites exactly
storage cell `r` with `value` (every other cell unchanged) and sets the
stored mapping's entry for `name` to `value` (key order unchanged); if
`name` is absent it is a silent no-op: no error, no cell or data-segment
change. -/
theorem update_data_memory_spec (m : MIPSMemory) (name : String)
    (value : Int) :
    (∀ r : Nat, name ∈ m.data_section.map Prod.fst →
      (m.data_section.map Prod.fst).indexOf name = r →
      r < m.memory.length →
      (m.update_data_memory name value).memory = m.memory.set r value ∧
      (m.update_data_memory name value).memory[r]? = some value ∧
      (∀ j : Nat, j ≠ r →
        (m.update_data_memory name value).memory[j]? = m.memory[j]?) ∧
      (m.update_data_memory name value).data_section.map Prod.fst =
        m.data_section.map Prod.fst ∧
      (m.update_data_memory name value).data_section.lookup name =
        some value) ∧
    (name ∉ m.data_section.map Prod.fst →
      m.update_data_memory name value = m) := by
  constructor
  · intro r hmem hidx hr
    have hfound := update_data_memory_found m name value hmem (hidx ▸ hr)
    rw [hidx] at hfound
    rw [hfound]
    exact ⟨rfl, List.getElem?_set_self hr,
      fun j hj => List.getElem?_set_ne (Ne.symm hj),
      setKey_map_fst _ _ _, lookup_setKey _ _ _ hmem⟩
  · intro h
    rw [update_data_memory, if_neg h]

/-- C8 witness: after `allocate_data({"x": 1, "y": 2, "z": 3})`,
`update_data_memory("y", 99)` changes cell 1 to 99 and leaves cells 0
and 2 unchanged, and the stored value of `"y"` becomes 99;
`update_data_memory("q", 1)` (unknown name) changes nothing. -/
theorem update_data_memory_spec_witness :
    (mXYZ.update_data_memory "y" 99).memory = mXYZ.memory.set 1 99 ∧
    (mXYZ.update_data_memory "y" 99).memory[1]? = some 99 ∧
    (mXYZ.update_data_memory "y" 99).memory[0]? = mXYZ.memory[0]? ∧
    (mXYZ.update_data_memory "y" 99).memory[2]? = mXYZ.memory[2]? ∧
    (mXYZ.update_data_memory "y" 99).data_section.lookup "y" = some 99 ∧
    mXYZ.update_data_memory "q" 1 = mXYZ := by
  have h := (update_data_memory_spec mXYZ "y" 99).1 1 (by decide) (by decide)
    (by decide)
  exact ⟨h.1, h.2.1, h.2.2.1 0 (by decide), h.2.2.1 2 (by decide),
    h.2.2.2.2, (update_data_memory_spec mXYZ "q" 1).2 (by decide)⟩

/-! ### Claim C9 -/

/-- C9: `read_word` has no side effects: whether it returns a value or
raises, the state it leaves behind is its input state, so the storage
array and the data-segment mapping are unchanged. `get_data_memory_values`
returns (a copy of) the storage array without changing it, and
`_validate_address`/`is_valid_address` are stateless by construction (the
source performs no assignment in any of them); `write_word`,
`allocate_data` and `update_data_memory` are the only operations whose
results carry a modified storage array. -/
theorem read_word_no_side_effects (m : MIPSMemory) (a : Int) :
    (m.read_word a).2 = m ∧
    (m.read_word a).2.memory = m.memory ∧
    (m.read_word a).2.data_section = m.data_section ∧
    m.get_data_memory_values = m.memory := by
  have h : (m.read_word a).2 = m := by
    rw [read_word]
    cases hv : m._validate_address a with
    | some e =>
        dsimp only
        by_cases h2 : 0 ≤ a ∧ a < m.config.base_address
        · rw [if_pos h2]
          by_cases h3 : 0 ≤ a.fdiv m.config.word_size ∧
              a.fdiv m.config.word_size < (m.memory.length : Int)
          · rw [if_pos h3]
          · rw [if_neg h3]
        · rw [if_neg h2]
    | none =>
        dsimp only
        cases pyGetItem m.memory
          ((a - m.config.base_address).fdiv m.config.word_size) <;> rfl
  exact ⟨h, by rw [h], by rw [h], rfl⟩

/-! ### Claim C10 -/

/-- C10: `allocate_data` and `update_data_memory` store values into
storage cells without applying `write_word`'s 16-bit mask: a cell whose
value they wrote holds that value unchanged (so it can lie outside
`[0, 0xFFFF]`), and `get_data_memory_values` returns the untruncated
value. -/
theorem data_values_untruncated (m : MIPSMemory) (ds : List (String × Int))
    (name : String) (v : Int) :
    (∀ i : Nat, i < m.memory.length → (ds.map Prod.snd)[i]? = some v →
      (m.allocate_data ds).memory[i]? = some v ∧
      (m.allocate_data ds).get_data_memory_values[i]? = some v) ∧
    (∀ r : Nat, name ∈ m.data_section.map Prod.fst →
      (m.data_section.map Prod.fst).indexOf name = r →
      r < m.memory.length →
      (m.update_data_memory name v).memory[r]? = some v ∧
      (m.update_data_memory name v).get_data_memory_values[r]? = some v) := by
  constructor
  · intro i h1 h2
    have hlen : i < (ds.map Prod.snd).length := by
      by_contra hcon
      rw [List.getElem?_eq_none (by omega)] at h2
      exact Option.noConfusion h2
    have h3 : (m.allocate_data ds).memory[i]? = (ds.map Prod.snd)[i]? := by
      simpa [allocate_data] using
        writeRanks_getElem_in (ds.map Prod.snd) m.memory 0 i (Nat.zero_le _)
          (by omega) h1
    exact ⟨h3.trans h2, h3.trans h2⟩
  · intro r hmem hidx hr
    have hfound := update_data_memory_found m name v hmem (hidx ▸ hr)
    rw [hidx] at hfound
    rw [hfound]
    exact ⟨List.getElem?_set_self hr, List.getElem?_set_self hr⟩

/-- C10 witness: `allocate_data({"big": 0x1FFFF})` leaves `0x1FFFF`
(which exceeds `0xFFFF`) in cell 0, and `update_data_memory("big",
999999)` likewise stores 999999 unmasked. -/
theorem data_values_untruncated_witness :
    mBig.memory[0]? = some 131071 ∧
    (65535:Int) < 131071 ∧
    (mBig.update_data_memory "big" 999999).memory[0]? = some 999999 := by
  have h1 := (data_values_untruncated (MIPSMemory.init 8 8) dsBig "big"
    131071).1 0 (by decide) (by decide)
  have h2 := (data_values_untruncated mBig dsBig "big" 999999).2
    0 (by decide) (by decide) (by decide)
  exact ⟨h1.1, by decide, h2.1⟩

end MIPSMemory
